import Mathlib

/-!
Shallow embedding of the Zog.js v0.4.7 reactivity core and template
reconciliation logic (source file `part_001`), together with theorems
settling the specification claims about it.

Modelling conventions:
* JavaScript values are modelled by `Zog.JSValue`.  Objects, arrays,
  functions and symbols are identified by a numeric heap id (JS reference
  identity).  Numbers are modelled by `Int` (the claims under study never
  depend on `NaN`/`-0` arithmetic), so `Object.is` coincides with
  decidable equality on `JSValue`.
* Stateful code is modelled by explicit state passing; every observable
  side effect relevant to a claim (a `Dep` notification, a DOM clone
  removal, a `Scope.cleanup`) is reified as data returned by the step
  function.
-/

namespace Zog

/-- A JavaScript value, as distinguished by the reactivity core.
`vObj isArr id` is a non-null object (`isArr` marks arrays) with heap
identity `id`; `vFun` and `vSym` carry identities as well. -/
inductive JSValue where
  | vUndefined
  | vNull
  | vBool (b : Bool)
  | vNum (n : Int)
  | vStr (s : String)
  | vSym (id : Nat)
  | vFun (id : Nat)
  | vObj (isArr : Bool) (id : Nat)
deriving DecidableEq, Repr

/-- Translation of `const isObj = v => v && typeof v === 'object'`
(part_001 line 85), read as a truthiness test: `null` is falsy and
`typeof null === 'object'` never matters; a function has
`typeof v === 'function'`; so only non-null objects/arrays qualify. -/
def isObj : JSValue → Bool
  | .vObj _ _ => true
  | _ => false

/-- The class of a thrown JS error object.  `ref` in part_001 throws
`new Error(...)`; `TypeError` is a distinct subclass of `Error` that the
source never instantiates. -/
inductive JSClass where
  | errorClass
  | typeErrorClass
deriving DecidableEq, Repr

/-- A thrown JS error: its constructor class and its message. -/
structure JSError where
  cls : JSClass
  msg : String
deriving DecidableEq, Repr

/-- The mutable cell captured by a `ref` closure (`let v = val`). -/
structure RefCell where
  v : JSValue
deriving DecidableEq, Repr

/-- Translation of `ref` construction (part_001 lines 160-168):
`if (isObj(val)) throw new Error('ref() cannot be used with objects or
arrays. Use reactive() instead.')`, else the closure captures `val`. -/
def refMake (val : JSValue) : Except JSError RefCell :=
  if isObj val then
    .error ⟨.errorClass, "ref() cannot be used with objects or arrays. Use reactive() instead."⟩
  else .ok ⟨val⟩

/-- Translation of the `set value(nv)` accessor of a ref (part_001 lines
172-178).  Returns the updated cell and the number of `dep.notify()`
calls made (each notify delivers to every subscriber of the ref's single
`Dep` exactly once, since `Dep.subs` is a `Set`). -/
def refSetValue (r : RefCell) (nv : JSValue) : Except JSError (RefCell × Nat) :=
  if isObj nv then
    .error ⟨.errorClass, "ref() value cannot be set to an object or array."⟩
  else if ¬(nv = r.v) then .ok (⟨nv⟩, 1)
  else .ok (r, 0)

/-- Translation of the `get value()` accessor: depends on the dep and
returns the captured value. -/
def refGetValue (r : RefCell) : JSValue := r.v

/-- A `ReactiveEffect` as seen by the scheduler (part_001 lines 45-52):
its creation-order `id` (`effectId++`), its `active` flag, whether its
`fn` body throws when run, and whether it was constructed with a custom
`scheduler` callback.  JS object identity of effects is modelled by
structural equality; in the source each effect gets a unique `id`, so
distinct effect objects are distinct values here. -/
structure Effect where
  id : Nat
  active : Bool
  throws : Bool
  hasScheduler : Bool
deriving DecidableEq, Repr

/-- The module-level scheduler state (part_001 line 25):
`let effectQueue = [], isFlushing = false`. -/
structure Scheduler where
  effectQueue : List Effect
  isFlushing : Bool
deriving DecidableEq, Repr

/-- The initial scheduler state. -/
def schedInit : Scheduler := ⟨[], false⟩

/-- Translation of `queueEffect` (part_001 lines 27-32):
`if (!effectQueue.includes(effect)) { effectQueue.push(effect);
if (!isFlushing) { isFlushing = true; Promise.resolve().then(flushEffects) } }`.
Setting `isFlushing` stands for the scheduled microtask flush. -/
def queueEffect (st : Scheduler) (e : Effect) : Scheduler :=
  if e ∈ st.effectQueue then st
  else { effectQueue := st.effectQueue ++ [e], isFlushing := true }

/-- Translation of `Dep.notify` (part_001 lines 18-22): iterate a
snapshot of the subscriber set (`subs` is a JS `Set`, so the list passed
here has no duplicates in the source); skip the currently running effect
`act`; an effect with a custom scheduler is handed to that scheduler and
bypasses the queue, all others go through `queueEffect`. -/
def depNotify (subs : List Effect) (act : Option Effect) (st : Scheduler) : Scheduler :=
  subs.foldl (fun s e =>
    if some e = act then s
    else if e.hasScheduler then s
    else queueEffect s e) st

/-- One notification batch: a subscriber snapshot together with the
effect that was running (`activeEffect`) when `notify()` fired. -/
structure NotifyBatch where
  subs : List Effect
  act : Option Effect

/-- Delivering a sequence of `Dep.notify` calls within one synchronous
block, starting from scheduler state `st`. -/
def notifyAll (batches : List NotifyBatch) (st : Scheduler) : Scheduler :=
  batches.foldl (fun s b => depNotify b.subs b.act s) st

/-- Running one effect body: `e.run()` either returns or throws
(part_001 line 39 wraps it in `try ... catch`). -/
def effectRun (e : Effect) : Except String Nat :=
  if e.throws then .error "Effect error" else .ok e.id

/-- The flush loop of `flushEffects` (part_001 lines 38-40): run each
queued effect in order, skipping inactive ones; a thrown error is caught
and logged and the loop continues.  Returns the ids of the effects whose
`run()` was invoked, in invocation order, together with the ids whose
run threw (the logged errors). -/
def flushLoop : List Effect → List Nat × List Nat
  | [] => ([], [])
  | e :: rest =>
    if e.active then
      match effectRun e with
      | .ok _ => let (r, er) := flushLoop rest; (e.id :: r, er)
      | .error _ => let (r, er) := flushLoop rest; (e.id :: r, e.id :: er)
    else flushLoop rest

/-- The comparison used by `effectQueue.slice().sort((a, b) => a.id - b.id)`:
ascending creation-order id. -/
def effLE (a b : Effect) : Prop := a.id ≤ b.id

instance : DecidableRel effLE := fun a b => inferInstanceAs (Decidable (a.id ≤ b.id))

instance : IsTotal Effect effLE := ⟨fun a b => Nat.le_total a.id b.id⟩

instance : IsTrans Effect effLE := ⟨fun _ _ _ h1 h2 => Nat.le_trans h1 h2⟩

/-- Translation of `flushEffects` (part_001 lines 34-41): sort a copy of
the queue by ascending id (the JS comparator `a.id - b.id`; modelled by
a sort with respect to `effLE`), clear the queue, drop the flushing
flag, then run the loop.  Returns `((ran ids, errored ids), new state)`. -/
def flushEffects (st : Scheduler) : (List Nat × List Nat) × Scheduler :=
  let queue := List.insertionSort effLE st.effectQueue
  (flushLoop queue, { effectQueue := [], isFlushing := false })

/-- The closure state of `computed(getter)` (part_001 lines 183-192):
`let value, dirty = true` plus instrumentation counting how many times
the getter has been invoked (`effect.run()` executes `getter`), how many
times the computed's own `dep.notify()` fired, and how many times a read
called `dep.depend()`. -/
structure ComputedState where
  dirty : Bool
  cachedValue : JSValue
  getterRuns : Nat
  depNotifies : Nat
  dependCalls : Nat
deriving DecidableEq, Repr

/-- State right after `computed(getter)` returns: the internal
`ReactiveEffect` is constructed but not run, so `dirty = true` and the
getter has not been invoked. -/
def computedInit : ComputedState := ⟨true, .vUndefined, 0, 0, 0⟩

/-- Translation of the `get value()` accessor (part_001 line 189):
`if (dirty) { value = effect.run(); dirty = false } dep.depend(); return value`.
`g` is the value the getter currently produces. -/
def computedRead (g : JSValue) (st : ComputedState) : JSValue × ComputedState :=
  if st.dirty then
    (g, { st with dirty := false, cachedValue := g, getterRuns := st.getterRuns + 1,
                  dependCalls := st.dependCalls + 1 })
  else (st.cachedValue, { st with dependCalls := st.dependCalls + 1 })

/-- Translation of the computed's scheduler (part_001 line 186),
invoked when a tracked dependency notifies:
`() => { if (!dirty) { dirty = true; dep.notify() } }`. -/
def computedInvalidate (st : ComputedState) : ComputedState :=
  if st.dirty then st
  else { st with dirty := true, depNotifies := st.depNotifies + 1 }

/-- `n` consecutive `.value` reads. -/
def readN (g : JSValue) (st : ComputedState) : Nat → ComputedState
  | 0 => st
  | n + 1 => readN g (computedRead g st).2 n

/-- The global state of the `reactive` registry (part_001 lines 83-84):
`reactiveMap` models the `WeakMap` from raw target identity to proxy
identity, `proxySet` the set of heap ids for which the `IS_REACTIVE`
probe answers `true` (the proxy get trap, line 130), and `nextId` the
next unused heap id (fresh proxy allocation). -/
structure RState where
  reactiveMap : List (Nat × Nat)
  proxySet : List Nat
  nextId : Nat
deriving DecidableEq, Repr

/-- Translation of `reactive(target)`'s guard and registry logic
(part_001 lines 91-94 and 155-156):
`if (!isObj(target) || target[IS_REACTIVE]) return target;
if (reactiveMap.has(target)) return reactiveMap.get(target);`
then build the proxy (a fresh heap object preserving array-ness),
register it with `reactiveMap.set(target, proxy)`, and return it.
For a plain (non-proxy) object, `target[IS_REACTIVE]` reads an absent
symbol key and is `undefined`, hence falsy. -/
def reactive (st : RState) (v : JSValue) : JSValue × RState :=
  match v with
  | .vObj isArr id =>
    if st.proxySet.contains id then (v, st)
    else
      match st.reactiveMap.find? (fun p => p.1 == id) with
      | some p => (.vObj isArr p.2, st)
      | none =>
        (.vObj isArr st.nextId,
         { reactiveMap := st.reactiveMap ++ [(id, st.nextId)],
           proxySet := st.proxySet ++ [st.nextId],
           nextId := st.nextId + 1 })
  | v => (v, st)

/-- A target object's own enumerable state, modelled as an association
list from string property keys to values (JS own-property table,
insertion-ordered). -/
abbrev PropTable : Type := List (String × JSValue)

/-- `Object.prototype.hasOwnProperty.call(t, k)` (part_001 line 86). -/
def jsHas (t : PropTable) (k : String) : Bool := t.any (fun p => p.1 == k)

/-- `t[k]`: the stored value, or `undefined` when the key is absent. -/
def jsGet (t : PropTable) (k : String) : JSValue :=
  ((t.find? (fun p => p.1 == k)).map (fun p => p.2)).getD .vUndefined

/-- `Reflect.set(t, k, v)`: overwrite in place, or append a new key. -/
def jsSet (t : PropTable) (k : String) (v : JSValue) : PropTable :=
  if jsHas t k then t.map (fun p => if p.1 == k then (k, v) else p) else t ++ [(k, v)]

/-- Models the numeric-key test `String(+k) === k` (part_001 line 141)
on the key space used for array indices: `k` is the canonical decimal
form of a natural number, i.e. decimal digits with no leading zero
(`"0"` itself allowed).  (The JS test also accepts other canonical
number strings such as `"-1"` or `"1.5"`, and indices at or above
`2 ** 53` render differently; those keys are outside this model's key
space.) -/
def isCanonicalIndex (k : String) : Bool :=
  match k.data with
  | [] => false
  | [c] => c.isDigit
  | c :: rest => c ≠ '0' && c.isDigit && rest.all (fun d => d.isDigit)

/-- The outcome of one proxy `set` trap invocation: the updated target
table and whether the key's `Dep` / the container's iteration `Dep`
received a `notify()` call. -/
structure SetTrapResult where
  target : PropTable
  notifiedKeyDep : Bool
  notifiedIterationDep : Bool
deriving DecidableEq, Repr

/-- Translation of the proxy `set` trap (part_001 lines 136-144):
`const old = t[k], hadKey = has(t, k); const res = Reflect.set(t, k, v, r);
if (!hadKey || !Object.is(old, v)) { getDep(k).notify();
if (!hadKey || (isArray && (k === 'length' || String(+k) === k)))
iterationDep.notify(); }`. -/
def setTrap (isArray : Bool) (t : PropTable) (k : String) (v : JSValue) : SetTrapResult :=
  let old := jsGet t k
  let hadKey := jsHas t k
  let t2 := jsSet t k v
  let changed := !hadKey || !(old == v)
  { target := t2
    notifiedKeyDep := changed
    notifiedIterationDep :=
      changed && (!hadKey || (isArray && (k == "length" || isCanonicalIndex k))) }

/-- The directive type of one branch of a `z-if` chain. -/
inductive BranchKind where
  | zIf
  | zElseIf
  | zElse
deriving DecidableEq, Repr

/-- One record of the `branches` array built by the `z-if` compiler
(part_001 line 276) at the moment the conditional effect re-runs:
`kind` is the directive that introduced the branch, `cond` the
truthiness of `evalExp(b.exp, scope)` at this run, and `mounted` whether
`b.el` (equivalently `b.scope`: the two are set and nulled together,
lines 288-300) is currently non-null. -/
structure Branch where
  kind : BranchKind
  cond : Bool
  mounted : Bool
deriving DecidableEq, Repr

/-- What the conditional effect did to one branch during a re-run. -/
inductive BranchStep where
  /-- `b === chosen` and `!b.el`: clone the template, create a child
  Scope, insert at the anchor, compile (lines 288-293). -/
  | mountNew
  /-- `b === chosen` and `b.el` already set: left untouched. -/
  | keepMounted
  /-- unchosen with `b.scope` set: `b.el.remove(); b.scope.cleanup();
  cs.removeChild(b.scope)` and both fields nulled (lines 295-300). -/
  | unmount
  /-- unchosen and not mounted: nothing happens. -/
  | idle
deriving DecidableEq, Repr

/-- Translation of the chosen-branch scan (part_001 line 284):
`for (const b of branches) if (b.type === 'z-else' || evalExp(b.exp, scope))
{ chosen = b; break }` — the index of the first branch that is a
`z-else` or whose condition is truthy. -/
def chooseIdx : List Branch → Option Nat
  | [] => none
  | b :: rest =>
    if b.kind == .zElse || b.cond then some 0
    else (chooseIdx rest).map (fun n => n + 1)

/-- The per-branch update applied by `branches.forEach` (part_001 lines
286-302), given whether this branch is the chosen one (`b === chosen`
is reference identity, modelled by index equality). -/
def stepBranch (isChosen : Bool) (b : Branch) : Branch × BranchStep :=
  if isChosen then
    if b.mounted then (b, .keepMounted) else ({ b with mounted := true }, .mountNew)
  else if b.mounted then ({ b with mounted := false }, .unmount)
  else (b, .idle)

/-- The `forEach` walk with the running index. -/
def runIfAux (chosen : Option Nat) (i : Nat) : List Branch → List (Branch × BranchStep)
  | [] => []
  | b :: rest => stepBranch (chosen == some i) b :: runIfAux chosen (i + 1) rest

/-- One complete re-run of the `z-if` conditional effect (part_001 lines
282-303): scan for the chosen branch, then update every branch. -/
def runIfStep (bs : List Branch) : List (Branch × BranchStep) :=
  runIfAux (chooseIdx bs) 0 bs

/-- One record of the keyed list's `itemsMap` (part_001 line 387):
the clone node and child Scope are identified by heap ids.  `itemValue`
holds the item's reactive proxy for container items (the field compared
by identity at line 350); for primitive items the source stores the item
ref there, and this model stores the ref's current content (the value
written by `existing.itemRef.value = val` at line 360). -/
structure ForItem where
  cloneId : Nat
  scopeId : Nat
  itemValue : JSValue
deriving DecidableEq, Repr

/-- Observable side effects of one `z-for` re-run.  `destroyItem` stands
for `item.clone.remove(); item.scope.cleanup(); cs.removeChild(item.scope)`
(lines 352-354 and 393-395); `createItem` for cloning the template,
creating a child Scope and compiling the clone (lines 370-387).  The
final reorder walk (lines 400-405) only repositions existing clone
nodes and is not an event. -/
inductive ForEv where
  | destroyItem (cloneId scopeId : Nat)
  | createItem (key : String) (cloneId scopeId : Nat)
deriving DecidableEq, Repr

/-- Persistent state of one `z-for` instance: the `itemsMap` closure
variable (line 328, a JS `Map` from derived key to item record,
insertion-ordered) and the next fresh heap id for clones/scopes. -/
structure ForState where
  itemsMap : List (String × ForItem)
  nextId : Nat
deriving DecidableEq, Repr

/-- `Map.prototype.get`. -/
def fmGet (m : List (String × ForItem)) (k : String) : Option ForItem :=
  (m.find? (fun p => p.1 == k)).map (fun p => p.2)

/-- `Map.prototype.has`. -/
def fmHas (m : List (String × ForItem)) (k : String) : Bool :=
  m.any (fun p => p.1 == k)

/-- `Map.prototype.set`: overwrite the entry in place (keeping its
insertion position), else append a new entry. -/
def fmSet (m : List (String × ForItem)) (k : String) (it : ForItem) :
    List (String × ForItem) :=
  match m with
  | [] => [(k, it)]
  | p :: rest => if p.1 == k then (k, it) :: rest else p :: fmSet rest k it

/-- The `reactive(...)` call applied to a container item (part_001 line
345).  `canon` maps a raw heap id to the id of its proxy; by the
identity-registry behaviour of `reactive` (see `reactive` above) this is
a function of the target, and it is the identity on ids that are already
proxies. -/
def canonVal (canon : Nat → Nat) : JSValue → JSValue
  | .vObj b id => .vObj b (canon id)
  | v => v

/-- Accumulator of the `arr.forEach` walk of the `z-for` effect
(part_001 lines 335-388): the `newItemsMap` and `newKeys` being built,
the fresh-id counter, and the emitted events. -/
structure ForAcc where
  newMap : List (String × ForItem)
  newKeys : List String
  nextId : Nat
  evs : List ForEv
deriving DecidableEq, Repr

/-- Translation of one iteration of `arr.forEach((v, i) => ...)`
(part_001 lines 337-388), with `key` the derived tracking key
(`'_' + evalExp(keyAttr, ...)`, line 339) and `oldMap` the `itemsMap`
captured at the start of the run:
* `const existing = itemsMap.get(key)` (line 342);
* `const val = isObj(v) && !v[IS_REACTIVE] ? reactive(v) : v`, which
  `canonVal` models for containers (already-reactive ids are fixed
  points of `canon`), and `isReactiveObj = val && val[IS_REACTIVE]`
  (lines 345-346);
* if `existing` and `isReactiveObj && existing.itemValue !== val`:
  destroy the old clone/Scope and fall through to creation
  (lines 350-355);
* else if `existing`: reuse the record unchanged apart from the
  primitive-item ref update (lines 358-365);
* otherwise create a fresh clone and child Scope (lines 370-387). -/
def zForStep1 (canon : Nat → Nat) (oldMap : List (String × ForItem))
    (acc : ForAcc) (key : String) (v : JSValue) : ForAcc :=
  let val := if isObj v then canonVal canon v else v
  let isReactiveObj := isObj val
  match fmGet oldMap key with
  | some existing =>
    if isReactiveObj && !(existing.itemValue == val) then
      { newMap := fmSet acc.newMap key ⟨acc.nextId, acc.nextId + 1, val⟩
        newKeys := acc.newKeys ++ [key]
        nextId := acc.nextId + 2
        evs := acc.evs ++ [.destroyItem existing.cloneId existing.scopeId,
                           .createItem key acc.nextId (acc.nextId + 1)] }
    else
      { acc with
        newMap := fmSet acc.newMap key
          { existing with itemValue := if isReactiveObj then existing.itemValue else val }
        newKeys := acc.newKeys ++ [key] }
  | none =>
    { newMap := fmSet acc.newMap key ⟨acc.nextId, acc.nextId + 1, val⟩
      newKeys := acc.newKeys ++ [key]
      nextId := acc.nextId + 2
      evs := acc.evs ++ [.createItem key acc.nextId (acc.nextId + 1)] }

/-- The stale-item sweep (part_001 lines 391-397): every entry of the
old map whose key is not in `newItemsMap` has its clone removed and its
Scope cleaned up. -/
def zForRemovals (oldMap newMap : List (String × ForItem)) : List ForEv :=
  (oldMap.filter (fun p => !(fmHas newMap p.1))).map
    (fun p => .destroyItem p.2.cloneId p.2.scopeId)

/-- The items of the current render paired with their derived keys, in
source order (`keyOf v i` abstracts `'_' + evalExp(keyAttr, ...)`). -/
def keyedElems (keyOf : JSValue → Nat → String) (arr : List JSValue) :
    List (String × JSValue) :=
  arr.enum.map (fun p => (keyOf p.2 p.1, p.2))

/-- One complete re-run of the `z-for` effect (part_001 lines 330-407):
walk the array building `newItemsMap`, sweep removed keys, reposition
clones (no event), and replace `itemsMap` with `newItemsMap`. -/
def zForRun (canon : Nat → Nat) (keyOf : JSValue → Nat → String)
    (arr : List JSValue) (st : ForState) : ForState × List ForEv :=
  let acc := (keyedElems keyOf arr).foldl
    (fun a p => zForStep1 canon st.itemsMap a p.1 p.2) ⟨[], [], st.nextId, []⟩
  ({ itemsMap := acc.newMap, nextId := acc.nextId },
   acc.evs ++ zForRemovals st.itemsMap acc.newMap)

/-- The value bound for a list item: `isObj(v) && !v[IS_REACTIVE] ?
reactive(v) : v` (part_001 line 345) — the item itself after the
reactive wrap for containers, the raw value for primitives. -/
def valOf (canon : Nat → Nat) (v : JSValue) : JSValue :=
  if isObj v then canonVal canon v else v

/-- The rebuild test of part_001 line 350:
`isReactiveObj && existing.itemValue !== val`. -/
def rebuildB (canon : Nat → Nat) (v : JSValue) (ex : ForItem) : Bool :=
  isObj (valOf canon v) && !(ex.itemValue == valOf canon v)

/-- Whether processing `(key, v)` creates a fresh clone/Scope: either the
key is new, or the old item must be rebuilt. -/
def createsNew (canon : Nat → Nat) (oldMap : List (String × ForItem))
    (k : String) (v : JSValue) : Prop :=
  match fmGet oldMap k with
  | none => True
  | some ex => rebuildB canon v ex = true

/-- The item record that `zForStep1` stores in `newItemsMap` under the
element's key. -/
def stepItem (canon : Nat → Nat) (oldMap : List (String × ForItem))
    (acc : ForAcc) (k : String) (v : JSValue) : ForItem :=
  match fmGet oldMap k with
  | some existing =>
    if rebuildB canon v existing then ⟨acc.nextId, acc.nextId + 1, valOf canon v⟩
    else { existing with
           itemValue := if isObj (valOf canon v) then existing.itemValue else valOf canon v }
  | none => ⟨acc.nextId, acc.nextId + 1, valOf canon v⟩

/-- The events that `zForStep1` emits for one element. -/
def stepEvs (canon : Nat → Nat) (oldMap : List (String × ForItem))
    (acc : ForAcc) (k : String) (v : JSValue) : List ForEv :=
  match fmGet oldMap k with
  | some existing =>
    if rebuildB canon v existing then
      [.destroyItem existing.cloneId existing.scopeId,
       .createItem k acc.nextId (acc.nextId + 1)]
    else []
  | none => [.createItem k acc.nextId (acc.nextId + 1)]

/-- The `forEach` walk as a fold, for reasoning by list induction. -/
def foldSteps (canon : Nat → Nat) (oldMap : List (String × ForItem))
    (acc : ForAcc) (elems : List (String × JSValue)) : ForAcc :=
  elems.foldl (fun a p => zForStep1 canon oldMap a p.1 p.2) acc

/-- Key derivation for the concrete C2 scenario (the spec's P5 lists):
items carry their key in their heap id. -/
def c2DemoKey : JSValue → Nat → String := fun v _ =>
  match v with
  | .vObj _ 1 => "a"
  | .vObj _ 2 => "b"
  | .vObj _ 3 => "c"
  | _ => "z"

/-- The new render of the concrete C2 scenario: the item keyed `"a"`
persists (same identity), item keyed `"b"` is gone, item keyed `"c"` is
new. -/
def c2DemoArr : List JSValue := [.vObj false 1, .vObj false 3]

/-- The persisted list state before the concrete C2 re-run: clones 10
and 12 with scopes 11 and 13 for keys `"a"` and `"b"`. -/
def c2DemoSt : ForState :=
  ⟨[("a", ⟨10, 11, .vObj false 1⟩), ("b", ⟨12, 13, .vObj false 2⟩)], 14⟩

lemma queueEffect_nodup (st : Scheduler) (e : Effect) (h : st.effectQueue.Nodup) :
    (queueEffect st e).effectQueue.Nodup := by
  unfold queueEffect
  split
  · exact h
  · next hne => simp [List.nodup_append, h, hne]

lemma queueEffect_mem_mono (st : Scheduler) (e x : Effect) (h : x ∈ st.effectQueue) :
    x ∈ (queueEffect st e).effectQueue := by
  unfold queueEffect
  split
  · exact h
  · exact List.mem_append_left _ h

lemma queueEffect_self_mem (st : Scheduler) (e : Effect) :
    e ∈ (queueEffect st e).effectQueue := by
  unfold queueEffect
  split
  · assumption
  · simp

lemma depNotify_cons (a : Effect) (l : List Effect) (act : Option Effect) (st : Scheduler) :
    depNotify (a :: l) act st =
      depNotify l act
        (if some a = act then st else if a.hasScheduler then st else queueEffect st a) := by
  simp only [depNotify, List.foldl_cons]

lemma depNotify_nodup (subs : List Effect) (act : Option Effect) (st : Scheduler)
    (h : st.effectQueue.Nodup) : (depNotify subs act st).effectQueue.Nodup := by
  induction subs generalizing st with
  | nil => exact h
  | cons a l ih =>
    rw [depNotify_cons]
    apply ih
    split
    · exact h
    · split
      · exact h
      · exact queueEffect_nodup st a h

lemma depNotify_mem_mono (subs : List Effect) (act : Option Effect) (st : Scheduler)
    (x : Effect) (h : x ∈ st.effectQueue) : x ∈ (depNotify subs act st).effectQueue := by
  induction subs generalizing st with
  | nil => exact h
  | cons a l ih =>
    rw [depNotify_cons]
    apply ih
    split
    · exact h
    · split
      · exact h
      · exact queueEffect_mem_mono st a x h

lemma depNotify_mem_of (subs : List Effect) (act : Option Effect) (st : Scheduler)
    (e : Effect) (hm : e ∈ subs) (hact : some e ≠ act) (hs : e.hasScheduler = false) :
    e ∈ (depNotify subs act st).effectQueue := by
  induction subs generalizing st with
  | nil => cases hm
  | cons a l ih =>
    rw [depNotify_cons]
    rcases List.mem_cons.mp hm with rfl | hm'
    · rw [if_neg hact, hs]
      simp only [Bool.false_eq_true, if_false]
      exact depNotify_mem_mono l act _ e (queueEffect_self_mem st e)
    · exact ih _ hm'

lemma notifyAll_cons (b : NotifyBatch) (bs : List NotifyBatch) (st : Scheduler) :
    notifyAll (b :: bs) st = notifyAll bs (depNotify b.subs b.act st) := by
  simp only [notifyAll, List.foldl_cons]

lemma notifyAll_nodup (bs : List NotifyBatch) (st : Scheduler) (h : st.effectQueue.Nodup) :
    (notifyAll bs st).effectQueue.Nodup := by
  induction bs generalizing st with
  | nil => exact h
  | cons b l ih => rw [notifyAll_cons]; exact ih _ (depNotify_nodup _ _ _ h)

lemma notifyAll_mem_mono (bs : List NotifyBatch) (st : Scheduler) (x : Effect)
    (h : x ∈ st.effectQueue) : x ∈ (notifyAll bs st).effectQueue := by
  induction bs generalizing st with
  | nil => exact h
  | cons b l ih => rw [notifyAll_cons]; exact ih _ (depNotify_mem_mono _ _ _ _ h)

lemma notifyAll_mem_of (bs : List NotifyBatch) (st : Scheduler) (e : Effect)
    (h : ∃ b ∈ bs, e ∈ b.subs ∧ some e ≠ b.act) (hs : e.hasScheduler = false) :
    e ∈ (notifyAll bs st).effectQueue := by
  induction bs generalizing st with
  | nil => rcases h with ⟨b, hb, _⟩; cases hb
  | cons b l ih =>
    rw [notifyAll_cons]
    rcases h with ⟨b', hb', hsub, hact⟩
    rcases List.mem_cons.mp hb' with rfl | hmem
    · exact notifyAll_mem_mono l _ e (depNotify_mem_of _ _ _ e hsub hact hs)
    · exact ih _ ⟨b', hmem, hsub, hact⟩

lemma flushLoop_fst (l : List Effect) :
    (flushLoop l).1 = (l.filter (fun e => e.active)).map (fun e => e.id) := by
  induction l with
  | nil => rfl
  | cons e rest ih =>
    cases hA : e.active <;> cases hT : e.throws <;>
      simp [flushLoop, effectRun, hA, hT, ih]

lemma flushLoop_snd (l : List Effect) :
    (flushLoop l).2 = (l.filter (fun e => e.active && e.throws)).map (fun e => e.id) := by
  induction l with
  | nil => rfl
  | cons e rest ih =>
    cases hA : e.active <;> cases hT : e.throws <;>
      simp [flushLoop, effectRun, hA, hT, ih]

lemma flushEffects_ran (st : Scheduler) :
    (flushEffects st).1.1 =
      ((List.insertionSort effLE st.effectQueue).filter (fun e => e.active)).map
        (fun e => e.id) := by
  simp only [flushEffects]
  exact flushLoop_fst _

lemma flushEffects_ran_sorted (st : Scheduler) :
    List.Sorted (· ≤ ·) (flushEffects st).1.1 := by
  rw [flushEffects_ran]
  have hs : List.Sorted effLE (List.insertionSort effLE st.effectQueue) :=
    List.sorted_insertionSort effLE st.effectQueue
  have hf : List.Pairwise effLE
      ((List.insertionSort effLE st.effectQueue).filter (fun e => e.active)) :=
    List.Pairwise.sublist (List.filter_sublist _) hs
  exact List.pairwise_map.mpr hf

lemma flushEffects_mem_ran (st : Scheduler) (e : Effect)
    (hm : e ∈ st.effectQueue) (ha : e.active = true) : e.id ∈ (flushEffects st).1.1 := by
  rw [flushEffects_ran]
  have hmem : e ∈ List.insertionSort effLE st.effectQueue :=
    (List.perm_insertionSort effLE st.effectQueue).symm.subset hm
  exact List.mem_map_of_mem _ (List.mem_filter.mpr ⟨hmem, ha⟩)

lemma flushEffects_not_mem_ran (st : Scheduler) (e : Effect)
    (hids : (st.effectQueue.map (fun x => x.id)).Nodup)
    (hm : e ∈ st.effectQueue) (ha : e.active = false) : e.id ∉ (flushEffects st).1.1 := by
  rw [flushEffects_ran]
  intro hcon
  rcases List.mem_map.mp hcon with ⟨e', he', hid⟩
  rcases List.mem_filter.mp he' with ⟨he'sorted, he'active⟩
  have he'q : e' ∈ st.effectQueue :=
    (List.perm_insertionSort effLE st.effectQueue).subset he'sorted
  have : e' = e := List.inj_on_of_nodup_map hids he'q hm hid
  rw [this] at he'active
  rw [ha] at he'active
  cases he'active

lemma flushEffects_ran_nodup (st : Scheduler)
    (hids : (st.effectQueue.map (fun e => e.id)).Nodup) : (flushEffects st).1.1.Nodup := by
  rw [flushEffects_ran]
  have hperm : ((List.insertionSort effLE st.effectQueue).map (fun e => e.id)).Perm
      (st.effectQueue.map (fun e => e.id)) :=
    (List.perm_insertionSort effLE st.effectQueue).map _
  have hnod : ((List.insertionSort effLE st.effectQueue).map (fun e => e.id)).Nodup :=
    hperm.nodup_iff.mpr hids
  have hsub : (((List.insertionSort effLE st.effectQueue).filter (fun e => e.active)).map
      (fun e => e.id)).Sublist
      ((List.insertionSort effLE st.effectQueue).map (fun e => e.id)) :=
    (List.filter_sublist _).map _
  exact hnod.sublist hsub

lemma flushEffects_mem_err (st : Scheduler) (e : Effect)
    (hm : e ∈ st.effectQueue) (ha : e.active = true) (ht : e.throws = true) :
    e.id ∈ (flushEffects st).1.2 := by
  have : (flushEffects st).1.2 =
      ((List.insertionSort effLE st.effectQueue).filter
        (fun e => e.active && e.throws)).map (fun e => e.id) := by
    simp only [flushEffects]
    exact flushLoop_snd _
  rw [this]
  have hmem : e ∈ List.insertionSort effLE st.effectQueue :=
    (List.perm_insertionSort effLE st.effectQueue).symm.subset hm
  refine List.mem_map_of_mem _ (List.mem_filter.mpr ⟨hmem, ?_⟩)
  rw [ha, ht]
  rfl

lemma stepBranch_mounted (c : Bool) (b : Branch) : ((stepBranch c b).1).mounted = c := by
  cases c <;> cases hb : b.mounted <;> simp [stepBranch, hb]

lemma runIfAux_get (c : Option Nat) (i : Nat) (bs : List Branch) (j : Nat) :
    (runIfAux c i bs)[j]? = (bs[j]?).map (fun b => stepBranch (c == some (i + j)) b) := by
  induction bs generalizing i j with
  | nil => simp [runIfAux]
  | cons b rest ih =>
    cases j with
    | zero => simp [runIfAux]
    | succ j' =>
      have h := ih (i + 1) j'
      have harith : i + 1 + j' = i + (j' + 1) := by omega
      rw [harith] at h
      simpa [runIfAux] using h

lemma runIfStep_get (bs : List Branch) (j : Nat) :
    (runIfStep bs)[j]? = (bs[j]?).map (fun b => stepBranch (chooseIdx bs == some j) b) := by
  have h := runIfAux_get (chooseIdx bs) 0 bs j
  simpa [runIfStep] using h

lemma chooseIdx_some : ∀ (bs : List Branch) (j : Nat), chooseIdx bs = some j →
    ∃ b, bs[j]? = some b ∧ (b.kind = .zElse ∨ b.cond = true) ∧
      ∀ k, k < j → ∃ b', bs[k]? = some b' ∧ b'.kind ≠ .zElse ∧ b'.cond = false := by
  intro bs
  induction bs with
  | nil => intro j h; simp [chooseIdx] at h
  | cons b rest ih =>
    intro j h
    rw [chooseIdx] at h
    by_cases hb : (b.kind == BranchKind.zElse || b.cond) = true
    · rw [if_pos hb] at h
      injection h with h0
      subst h0
      refine ⟨b, by simp, ?_, ?_⟩
      · simpa [Bool.or_eq_true, beq_iff_eq] using hb
      · intro k hk; exact absurd hk (Nat.not_lt_zero k)
    · rw [if_neg hb] at h
      rcases Option.map_eq_some'.mp h with ⟨j', hj', rfl⟩
      obtain ⟨b', hb', hcond, hbefore⟩ := ih j' hj'
      have hnot : b.kind ≠ BranchKind.zElse ∧ b.cond = false := by
        simpa [Bool.or_eq_true, beq_iff_eq, not_or] using hb
      refine ⟨b', by simpa using hb', hcond, ?_⟩
      intro k hk
      cases k with
      | zero => exact ⟨b, by simp, hnot⟩
      | succ k' =>
        obtain ⟨b'', h1, h2⟩ := hbefore k' (by omega)
        exact ⟨b'', by simpa using h1, h2⟩

lemma chooseIdx_none : ∀ (bs : List Branch), chooseIdx bs = none →
    ∀ (j : Nat) (b : Branch), bs[j]? = some b → b.kind ≠ .zElse ∧ b.cond = false := by
  intro bs
  induction bs with
  | nil => intro _ j b hj; simp at hj
  | cons b0 rest ih =>
    intro h j b hj
    rw [chooseIdx] at h
    by_cases hb : (b0.kind == BranchKind.zElse || b0.cond) = true
    · rw [if_pos hb] at h; cases h
    · rw [if_neg hb] at h
      have hrest : chooseIdx rest = none := by
        cases hr : chooseIdx rest with
        | none => rfl
        | some _ => rw [hr] at h; simp at h
      cases j with
      | zero =>
        have : b0 = b := by simpa using hj
        subst this
        simpa [Bool.or_eq_true, beq_iff_eq, not_or] using hb
      | succ j' => exact ih hrest j' b (by simpa using hj)

lemma readN_clean (g : JSValue) (st : ComputedState) (h : st.dirty = false) (n : Nat) :
    (readN g st n).getterRuns = st.getterRuns ∧ (readN g st n).dirty = false ∧
    (readN g st n).cachedValue = st.cachedValue := by
  induction n generalizing st with
  | zero => exact ⟨rfl, h, rfl⟩
  | succ n ih =>
    have hstep : (computedRead g st).2 = { st with dependCalls := st.dependCalls + 1 } := by
      simp [computedRead, h]
    rw [readN, hstep]
    exact ih { st with dependCalls := st.dependCalls + 1 } h

/-- C9: `reactive` applied to any value that is not a non-null object —
`null`, `undefined`, booleans, numbers, strings, symbols, and also
functions — returns the value itself unchanged, raises nothing, and
leaves the identity registry untouched. -/
theorem c9_reactive_passes_through_non_objects (st : RState) :
    (∀ v, isObj v = false → reactive st v = (v, st)) ∧
    isObj .vNull = false ∧ isObj .vUndefined = false ∧
    (∀ b, isObj (.vBool b) = false) ∧ (∀ n, isObj (.vNum n) = false) ∧
    (∀ s, isObj (.vStr s) = false) ∧ (∀ i, isObj (.vSym i) = false) ∧
    (∀ i, isObj (.vFun i) = false) := by
  refine ⟨?_, rfl, rfl, fun _ => rfl, fun _ => rfl, fun _ => rfl, fun _ => rfl, fun _ => rfl⟩
  intro v h
  cases v <;> simp_all [isObj, reactive]

/-- Witness for C9 at a concrete input: a function value passes through
`reactive` unchanged with no registry entry added. -/
theorem c9_witness :
    reactive ⟨[], [], 0⟩ (.vFun 7) = (.vFun 7, ⟨[], [], 0⟩) :=
  (c9_reactive_passes_through_non_objects ⟨[], [], 0⟩).1 (.vFun 7) rfl

/-- C10: `ref(null)` and `ref(f)` for a function `f` succeed (the
`isObj` check classifies `null` and functions as non-objects), the ref
stores and returns the value, and assigning `null` or a function to an
existing ref's `.value` is accepted and notifies exactly on change. -/
theorem c10_ref_accepts_null_and_functions (f : Nat) (r : RefCell) :
    refMake .vNull = .ok ⟨.vNull⟩ ∧
    refGetValue ⟨.vNull⟩ = .vNull ∧
    refMake (.vFun f) = .ok ⟨.vFun f⟩ ∧
    refGetValue ⟨.vFun f⟩ = .vFun f ∧
    isObj .vNull = false ∧ isObj (.vFun f) = false ∧
    (r.v ≠ .vNull → refSetValue r .vNull = .ok (⟨.vNull⟩, 1)) ∧
    (r.v = .vNull → refSetValue r .vNull = .ok (r, 0)) ∧
    (r.v ≠ .vFun f → refSetValue r (.vFun f) = .ok (⟨.vFun f⟩, 1)) := by
  refine ⟨rfl, rfl, rfl, rfl, rfl, rfl, ?_, ?_, ?_⟩ <;> intro h
  · simp [refSetValue, isObj, Ne.symm h]
  · simp [refSetValue, isObj, h]
  · simp [refSetValue, isObj, Ne.symm h]

/-- Witness for C10: assigning `null` to a ref currently holding `1`
notifies once. -/
theorem c10_witness :
    refSetValue ⟨.vNum 1⟩ .vNull = .ok (⟨.vNull⟩, 1) :=
  (c10_ref_accepts_null_and_functions 0 ⟨.vNum 1⟩).2.2.2.2.2.2.1 (by decide)

/-- Counterexample to C5 as stated: `ref({})` does throw, but the thrown
error is constructed with `new Error(...)` (part_001 line 164), whose
class is `Error`, not the `TypeError` class the claim requires. -/
theorem c5_counterexample :
    refMake (.vObj false 0) =
      .error ⟨.errorClass,
        "ref() cannot be used with objects or arrays. Use reactive() instead."⟩ ∧
    JSClass.errorClass ≠ JSClass.typeErrorClass :=
  ⟨rfl, by decide⟩

/-- C5 (amended): `ref(v)` with a container `v` throws an `Error`-class
error (not a `TypeError`), and assigning a container to an existing
ref's `.value` likewise throws an `Error`-class error; `ref` with a
scalar succeeds, a subsequent assignment of a distinct scalar value
notifies the ref's single Dep exactly once (each notify reaching every
subscriber once, `Dep.subs` being a `Set`), and assigning an identical
value notifies no one. -/
theorem c5_ref_strictness (v w u : JSValue) (r : RefCell)
    (hv : isObj v = true) (hw : isObj w = false) (hu : isObj u = false) :
    refMake v =
      .error ⟨.errorClass,
        "ref() cannot be used with objects or arrays. Use reactive() instead."⟩ ∧
    refSetValue r v =
      .error ⟨.errorClass, "ref() value cannot be set to an object or array."⟩ ∧
    refMake w = .ok ⟨w⟩ ∧
    (u ≠ r.v → refSetValue r u = .ok (⟨u⟩, 1)) ∧
    (u = r.v → refSetValue r u = .ok (r, 0)) := by
  refine ⟨?_, ?_, ?_, ?_, ?_⟩
  · simp [refMake, hv]
  · simp [refSetValue, hv]
  · simp [refMake, hw]
  · intro h; simp [refSetValue, hu, h]
  · intro h; subst h; simp [refSetValue, hu]

/-- Witness for C5 (amended): `ref(0)` succeeds, `someRef.value = []`
throws an `Error`, and `.value = 5` on a ref holding `0` notifies
exactly once. -/
theorem c5_witness :
    refMake (.vNum 0) = .ok ⟨.vNum 0⟩ ∧
    refSetValue ⟨.vNum 0⟩ (.vObj true 3) =
      .error ⟨.errorClass, "ref() value cannot be set to an object or array."⟩ ∧
    refSetValue ⟨.vNum 0⟩ (.vNum 5) = .ok (⟨.vNum 5⟩, 1) := by
  have h := c5_ref_strictness (.vObj true 3) (.vNum 0) (.vNum 5) ⟨.vNum 0⟩
    (by decide) (by decide) (by decide)
  exact ⟨h.2.2.1, h.2.1, h.2.2.2.1 (by decide)⟩

/-- C4: a proxy property write notifies the key's Dep exactly when the
key was previously absent or the new value differs (`Object.is`); a
previously-absent key additionally notifies the iteration Dep, as does —
on arrays only — a changed write to a numeric index or to `length`;
an identical-value write to an existing key notifies no Dep at all (so
nothing is enqueued and no subscribed effect re-runs). -/
theorem c4_set_trap_notifications (isArr : Bool) (t : PropTable) (k : String) (v : JSValue) :
    (jsHas t k = true → jsGet t k = v →
       (setTrap isArr t k v).notifiedKeyDep = false ∧
       (setTrap isArr t k v).notifiedIterationDep = false) ∧
    (jsHas t k = true → jsGet t k ≠ v → (setTrap isArr t k v).notifiedKeyDep = true) ∧
    (jsHas t k = false →
       (setTrap isArr t k v).notifiedKeyDep = true ∧
       (setTrap isArr t k v).notifiedIterationDep = true) ∧
    (isArr = true → isCanonicalIndex k = true → jsGet t k ≠ v →
       (setTrap isArr t k v).notifiedIterationDep = true) ∧
    (isArr = true → k = "length" → jsGet t k ≠ v →
       (setTrap isArr t k v).notifiedIterationDep = true) ∧
    (isArr = false → jsHas t k = true →
       (setTrap isArr t k v).notifiedIterationDep = false) ∧
    (isArr = true → jsHas t k = true → k ≠ "length" → isCanonicalIndex k = false →
       (setTrap isArr t k v).notifiedIterationDep = false) := by
  refine ⟨?_, ?_, ?_, ?_, ?_, ?_, ?_⟩ <;> intros <;> simp_all [setTrap]

/-- Witness for C4: on an array holding `0` at index `"0"`, rewriting the
same value notifies nothing, while writing a distinct value notifies
both the index Dep and the iteration Dep. -/
theorem c4_witness :
    (setTrap true [("0", .vNum 0)] "0" (.vNum 0)).notifiedKeyDep = false ∧
    (setTrap true [("0", .vNum 0)] "0" (.vNum 0)).notifiedIterationDep = false ∧
    (setTrap true [("0", .vNum 0)] "0" (.vNum 1)).notifiedKeyDep = true ∧
    (setTrap true [("0", .vNum 0)] "0" (.vNum 1)).notifiedIterationDep = true := by
  have h1 := (c4_set_trap_notifications true [("0", .vNum 0)] "0" (.vNum 0)).1
    (by decide) (by decide)
  have h2 := (c4_set_trap_notifications true [("0", .vNum 0)] "0" (.vNum 1)).2.1
    (by decide) (by decide)
  have h3 := (c4_set_trap_notifications true [("0", .vNum 0)] "0" (.vNum 1)).2.2.2.1
    rfl (by decide) (by decide)
  exact ⟨h1.1, h1.2, h2, h3⟩

/-- C7: a computed's getter runs lazily and exactly once per
invalidation window: after creation, any positive number of `.value`
reads invokes the getter exactly once (leaving the cache clean with the
getter's value); a dependency change does not re-run the getter — it
only sets the `dirty` flag and notifies the computed's own Dep, once,
and only when the computed was clean; the recomputation happens at the
next `.value` read, which clears `dirty`. -/
theorem c7_computed_lazy_memoization (g : JSValue) (n : Nat) (st : ComputedState)
    (hn : 1 ≤ n) :
    ((readN g computedInit n).getterRuns = 1 ∧
     (readN g computedInit n).dirty = false ∧
     (readN g computedInit n).cachedValue = g) ∧
    (computedInvalidate st).getterRuns = st.getterRuns ∧
    (st.dirty = false →
       (computedInvalidate st).dirty = true ∧
       (computedInvalidate st).depNotifies = st.depNotifies + 1) ∧
    (st.dirty = true → computedInvalidate st = st) ∧
    (st.dirty = true →
       computedRead g st =
         (g,
          { st with
              dirty := false
              cachedValue := g
              getterRuns := st.getterRuns + 1
              dependCalls := st.dependCalls + 1 })) := by
  refine ⟨?_, ?_, ?_, ?_, ?_⟩
  · cases n with
    | zero => exact absurd hn (by simp)
    | succ m =>
      rw [readN]
      have h1 : (computedRead g computedInit).2 = ⟨false, g, 1, 0, 1⟩ := by
        simp [computedRead, computedInit]
      rw [h1]
      exact readN_clean g ⟨false, g, 1, 0, 1⟩ rfl m
  · by_cases h : st.dirty <;> simp [computedInvalidate, h]
  · intro h; simp [computedInvalidate, h]
  · intro h; simp [computedInvalidate, h]
  · intro h; simp [computedRead, h]

/-- Witness for C7: three consecutive reads after creation run the
getter exactly once. -/
theorem c7_witness :
    (readN (.vNum 42) computedInit 3).getterRuns = 1 :=
  (c7_computed_lazy_memoization (.vNum 42) 3 computedInit (by decide)).1.1

/-- C8: wrapping the same raw target twice yields the identical proxy
and leaves the registry unchanged, and wrapping the proxy returned by
`reactive` returns that proxy unchanged — `reactive(x) === reactive(x)`
and `reactive(reactive(x)) === reactive(x)`.  The hypotheses say the
registry is well formed: every registered proxy has the `IS_REACTIVE`
marker, and the heap id of `v` is an already-allocated id. -/
theorem c8_reactive_identity_idempotent (st : RState) (v : JSValue)
    (hmap : ∀ p ∈ st.reactiveMap, p.2 ∈ st.proxySet)
    (hv : ∀ b i, v = JSValue.vObj b i → i < st.nextId) :
    reactive (reactive st v).2 v = reactive st v ∧
    reactive (reactive st v).2 (reactive st v).1 = reactive st v := by
  cases v
  case vObj b i =>
    have hi : i < st.nextId := hv b i rfl
    by_cases hc : i ∈ st.proxySet
    · constructor <;> simp [reactive, hc]
    · cases hf : st.reactiveMap.find? (fun p => p.1 == i) with
      | some q =>
        have hq2 : q.2 ∈ st.proxySet := hmap q (List.mem_of_find?_eq_some hf)
        constructor
        · simp [reactive, hc, hf]
        · simp [reactive, hc, hf, hq2]
      | none =>
        have hne : i ≠ st.nextId := Nat.ne_of_lt hi
        constructor
        · simp [reactive, hc, hf, hne, List.find?_append]
        · simp [reactive, hc, hf, hne, List.find?_append]
  all_goals exact ⟨rfl, rfl⟩

/-- Witness for C8: wrapping raw object `0` in an empty registry, then
wrapping the resulting proxy, returns the same proxy and state. -/
theorem c8_witness :
    reactive (reactive ⟨[], [], 1⟩ (.vObj false 0)).2
        (reactive ⟨[], [], 1⟩ (.vObj false 0)).1 =
      reactive ⟨[], [], 1⟩ (.vObj false 0) :=
  (c8_reactive_identity_idempotent ⟨[], [], 1⟩ (.vObj false 0)
    (by intro p hp; cases hp)
    (by intro b i h; injection h with h1 h2; subst h2; decide)).2

/-- C6: when the flush queue is drained, the invoked effects run in
ascending creation-order id; an effect whose `active` flag is false is
skipped; and a thrown error during one effect's run is caught and
logged (it appears in the error log) while every other active queued
effect still runs — including active effects whose own body throws. -/
theorem c6_flush_order_skip_isolation (st : Scheduler)
    (hids : (st.effectQueue.map (fun e => e.id)).Nodup) :
    List.Sorted (· ≤ ·) (flushEffects st).1.1 ∧
    (∀ e ∈ st.effectQueue, e.active = false → e.id ∉ (flushEffects st).1.1) ∧
    (∀ e ∈ st.effectQueue, e.active = true → e.id ∈ (flushEffects st).1.1) ∧
    (∀ e ∈ st.effectQueue, e.active = true → e.throws = true →
       e.id ∈ (flushEffects st).1.2) := by
  refine ⟨flushEffects_ran_sorted st, ?_, ?_, ?_⟩
  · intro e he ha; exact flushEffects_not_mem_ran st e hids he ha
  · intro e he ha; exact flushEffects_mem_ran st e he ha
  · intro e he ha ht; exact flushEffects_mem_err st e he ha ht

/-- Witness for C6: with a queue holding a throwing active effect (id 2),
a healthy active effect (id 1) and an inactive effect (id 3), effect 1
still runs, effect 3 is skipped, and effect 2's error is logged. -/
theorem c6_witness :
    (1 : Nat) ∈ (flushEffects ⟨[⟨2, true, true, false⟩, ⟨1, true, false, false⟩,
        ⟨3, false, false, false⟩], true⟩).1.1 ∧
    (3 : Nat) ∉ (flushEffects ⟨[⟨2, true, true, false⟩, ⟨1, true, false, false⟩,
        ⟨3, false, false, false⟩], true⟩).1.1 ∧
    (2 : Nat) ∈ (flushEffects ⟨[⟨2, true, true, false⟩, ⟨1, true, false, false⟩,
        ⟨3, false, false, false⟩], true⟩).1.2 := by
  have h := c6_flush_order_skip_isolation
    ⟨[⟨2, true, true, false⟩, ⟨1, true, false, false⟩, ⟨3, false, false, false⟩], true⟩
    (by decide)
  exact ⟨h.2.2.1 ⟨1, true, false, false⟩ (by decide) rfl,
         h.2.1 ⟨3, false, false, false⟩ (by decide) rfl,
         h.2.2.2 ⟨2, true, true, false⟩ (by decide) rfl rfl⟩

/-- C3: for an effect without a custom scheduler, any number of Dep
notifications within one synchronous block enqueue it at most once —
the pending queue never holds the same effect twice — and if it was
notified at least once (while not being the currently running effect)
it sits in the queue, so the flush of that queue runs it exactly once. -/
theorem c3_notifications_coalesce (batches : List NotifyBatch) (e : Effect) :
    (notifyAll batches schedInit).effectQueue.Nodup ∧
    List.count e (notifyAll batches schedInit).effectQueue ≤ 1 ∧
    ((∃ b ∈ batches, e ∈ b.subs ∧ some e ≠ b.act ∧ e.hasScheduler = false) →
       e ∈ (notifyAll batches schedInit).effectQueue) ∧
    (e ∈ (notifyAll batches schedInit).effectQueue → e.active = true →
       ((notifyAll batches schedInit).effectQueue.map (fun x => x.id)).Nodup →
       List.count e.id (flushEffects (notifyAll batches schedInit)).1.1 = 1) := by
  have hnodup : (notifyAll batches schedInit).effectQueue.Nodup :=
    notifyAll_nodup batches schedInit List.nodup_nil
  refine ⟨hnodup, List.nodup_iff_count_le_one.mp hnodup e, ?_, ?_⟩
  · rintro ⟨b, hb, hsub, hact, hs⟩
    exact notifyAll_mem_of batches schedInit e ⟨b, hb, hsub, hact⟩ hs
  · intro hmem hact hids
    exact List.count_eq_one_of_mem (flushEffects_ran_nodup _ hids)
      (flushEffects_mem_ran _ e hmem hact)

/-- Witness for C3: two notifications of the same schedulerless effect
in one synchronous block make it run exactly once on the flush. -/
theorem c3_witness :
    List.count 1 (flushEffects (notifyAll
      [⟨[⟨1, true, false, false⟩], none⟩, ⟨[⟨1, true, false, false⟩], none⟩]
      schedInit)).1.1 = 1 :=
  (c3_notifications_coalesce
    [⟨[⟨1, true, false, false⟩], none⟩, ⟨[⟨1, true, false, false⟩], none⟩]
    ⟨1, true, false, false⟩).2.2.2 (by decide) rfl (by decide)

lemma fmGet_fmSet_self (m : List (String × ForItem)) (k : String) (it : ForItem) :
    fmGet (fmSet m k it) k = some it := by
  induction m with
  | nil =>
    unfold fmSet fmGet
    rw [List.find?_cons_of_pos _ (by simp)]
    rfl
  | cons p rest ih =>
    unfold fmSet
    by_cases h : p.1 = k
    · rw [if_pos (by simpa using h)]
      unfold fmGet
      rw [List.find?_cons_of_pos _ (by simp)]
      rfl
    · rw [if_neg (by simpa using h)]
      unfold fmGet
      rw [List.find?_cons_of_neg _ (by simpa using h)]
      exact ih

lemma fmGet_fmSet_ne (m : List (String × ForItem)) (k k' : String) (it : ForItem)
    (h : k' ≠ k) : fmGet (fmSet m k it) k' = fmGet m k' := by
  induction m with
  | nil =>
    unfold fmSet fmGet
    rw [List.find?_cons_of_neg _ (by simpa using Ne.symm h)]
  | cons p rest ih =>
    unfold fmSet
    by_cases hp : p.1 = k
    · rw [if_pos (by simpa using hp)]
      unfold fmGet
      rw [List.find?_cons_of_neg _ (by simpa using Ne.symm h),
          List.find?_cons_of_neg _ (by simp [hp, Ne.symm h])]
    · rw [if_neg (by simpa using hp)]
      by_cases hc : p.1 = k'
      · unfold fmGet
        rw [List.find?_cons_of_pos _ (by simpa using hc),
            List.find?_cons_of_pos _ (by simpa using hc)]
      · unfold fmGet
        rw [List.find?_cons_of_neg _ (by simpa using hc),
            List.find?_cons_of_neg _ (by simpa using hc)]
        exact ih

lemma fmGet_mem (m : List (String × ForItem)) (k : String) (it : ForItem)
    (h : fmGet m k = some it) : (k, it) ∈ m := by
  unfold fmGet at h
  rcases Option.map_eq_some'.mp h with ⟨p, hp, hv⟩
  have hk : p.1 = k := by simpa using List.find?_some hp
  have hm : p ∈ m := List.mem_of_find?_eq_some hp
  have : p = (k, it) := by
    cases p
    simp only at hk hv
    rw [hk, hv]
  rw [this] at hm
  exact hm

lemma mem_fmGet (m : List (String × ForItem)) (k : String) (it : ForItem)
    (hold : (m.map Prod.fst).Nodup) (h : (k, it) ∈ m) : fmGet m k = some it := by
  induction m with
  | nil => cases h
  | cons p rest ih =>
    rcases List.mem_cons.mp h with rfl | hmem
    · unfold fmGet
      rw [List.find?_cons_of_pos _ (by simp)]
      rfl
    · have hk : p.1 ≠ k := by
        intro he
        have : k ∈ rest.map Prod.fst := List.mem_map_of_mem Prod.fst hmem
        rw [List.map_cons, List.nodup_cons] at hold
        exact hold.1 (he ▸ this)
      have hrest : (rest.map Prod.fst).Nodup := by
        rw [List.map_cons, List.nodup_cons] at hold
        exact hold.2
      unfold fmGet
      rw [List.find?_cons_of_neg _ (by simpa using hk)]
      exact ih hrest hmem

lemma fmGet_none_of_fmHas_false (m : List (String × ForItem)) (k : String)
    (h : fmHas m k = false) : fmGet m k = none := by
  unfold fmHas at h
  unfold fmGet
  rw [Option.map_eq_none']
  rw [List.find?_eq_none]
  intro p hp hpk
  rw [List.any_eq_false] at h
  exact absurd hpk (h p hp)

lemma fmHas_true_of_fmGet_some (m : List (String × ForItem)) (k : String) (it : ForItem)
    (h : fmGet m k = some it) : fmHas m k = true := by
  have hm := fmGet_mem m k it h
  unfold fmHas
  rw [List.any_eq_true]
  exact ⟨(k, it), hm, by simp⟩

lemma zForStep1_newMap (canon : Nat → Nat) (oldMap : List (String × ForItem))
    (acc : ForAcc) (k : String) (v : JSValue) :
    (zForStep1 canon oldMap acc k v).newMap =
      fmSet acc.newMap k (stepItem canon oldMap acc k v) := by
  cases hf : fmGet oldMap k with
  | none => simp [zForStep1, stepItem, valOf, hf]
  | some ex =>
    by_cases hr : rebuildB canon v ex = true
    all_goals simp only [rebuildB, valOf] at hr
    all_goals simp [zForStep1, stepItem, rebuildB, valOf, hf, hr]

lemma zForStep1_evs (canon : Nat → Nat) (oldMap : List (String × ForItem))
    (acc : ForAcc) (k : String) (v : JSValue) :
    (zForStep1 canon oldMap acc k v).evs = acc.evs ++ stepEvs canon oldMap acc k v := by
  cases hf : fmGet oldMap k with
  | none => simp [zForStep1, stepEvs, valOf, hf]
  | some ex =>
    by_cases hr : rebuildB canon v ex = true
    all_goals simp only [rebuildB, valOf] at hr
    all_goals simp [zForStep1, stepEvs, rebuildB, valOf, hf, hr]

lemma zForStep1_nextId_mono (canon : Nat → Nat) (oldMap : List (String × ForItem))
    (acc : ForAcc) (k : String) (v : JSValue) :
    acc.nextId ≤ (zForStep1 canon oldMap acc k v).nextId := by
  cases hf : fmGet oldMap k with
  | none => simp [zForStep1, hf]
  | some ex =>
    by_cases hr : rebuildB canon v ex = true
    all_goals simp only [rebuildB, valOf] at hr
    all_goals simp [zForStep1, hf, hr]

lemma foldSteps_cons (canon : Nat → Nat) (oldMap : List (String × ForItem))
    (acc : ForAcc) (x : String × JSValue) (elems : List (String × JSValue)) :
    foldSteps canon oldMap acc (x :: elems) =
      foldSteps canon oldMap (zForStep1 canon oldMap acc x.1 x.2) elems := by
  simp only [foldSteps, List.foldl_cons]

lemma foldSteps_append (canon : Nat → Nat) (oldMap : List (String × ForItem))
    (acc : ForAcc) (l₁ l₂ : List (String × JSValue)) :
    foldSteps canon oldMap acc (l₁ ++ l₂) =
      foldSteps canon oldMap (foldSteps canon oldMap acc l₁) l₂ := by
  simp only [foldSteps, List.foldl_append]

lemma foldSteps_nextId_mono (canon : Nat → Nat) (oldMap : List (String × ForItem)) :
    ∀ (elems : List (String × JSValue)) (acc : ForAcc),
    acc.nextId ≤ (foldSteps canon oldMap acc elems).nextId := by
  intro elems
  induction elems with
  | nil => intro acc; exact Nat.le_refl _
  | cons x rest ih =>
    intro acc
    rw [foldSteps_cons]
    exact Nat.le_trans (zForStep1_nextId_mono canon oldMap acc x.1 x.2) (ih _)

lemma foldSteps_evs_mono (canon : Nat → Nat) (oldMap : List (String × ForItem)) :
    ∀ (elems : List (String × JSValue)) (acc : ForAcc) (ev : ForEv),
    ev ∈ acc.evs → ev ∈ (foldSteps canon oldMap acc elems).evs := by
  intro elems
  induction elems with
  | nil => intro acc ev h; exact h
  | cons x rest ih =>
    intro acc ev h
    rw [foldSteps_cons]
    refine ih _ ev ?_
    rw [zForStep1_evs]
    exact List.mem_append_left _ h

lemma foldSteps_frame (canon : Nat → Nat) (oldMap : List (String × ForItem)) :
    ∀ (elems : List (String × JSValue)) (acc : ForAcc) (k : String),
    k ∉ elems.map Prod.fst →
    fmGet (foldSteps canon oldMap acc elems).newMap k = fmGet acc.newMap k := by
  intro elems
  induction elems with
  | nil => intro acc k _; rfl
  | cons x rest ih =>
    intro acc k h
    rw [List.map_cons, List.mem_cons, not_or] at h
    rw [foldSteps_cons, ih _ k h.2, zForStep1_newMap]
    exact fmGet_fmSet_ne _ _ _ _ h.1

lemma stepEvs_cases (canon : Nat → Nat) (oldMap : List (String × ForItem))
    (acc : ForAcc) (k : String) (v : JSValue) (ev : ForEv)
    (h : ev ∈ stepEvs canon oldMap acc k v) :
    (∃ ex, fmGet oldMap k = some ex ∧ rebuildB canon v ex = true ∧
       ev = .destroyItem ex.cloneId ex.scopeId) ∨
    (∃ c s, createsNew canon oldMap k v ∧ ev = .createItem k c s) := by
  cases hf : fmGet oldMap k with
  | none =>
    have h' : ev ∈ [ForEv.createItem k acc.nextId (acc.nextId + 1)] := by
      unfold stepEvs at h; rw [hf] at h; exact h
    have hc : createsNew canon oldMap k v := by
      unfold createsNew; rw [hf]; exact True.intro
    simp only [List.mem_singleton] at h'
    exact Or.inr ⟨acc.nextId, acc.nextId + 1, hc, h'⟩
  | some ex =>
    have h' : ev ∈ (if rebuildB canon v ex = true then
        [ForEv.destroyItem ex.cloneId ex.scopeId,
         ForEv.createItem k acc.nextId (acc.nextId + 1)] else []) := by
      unfold stepEvs at h; rw [hf] at h; exact h
    by_cases hr : rebuildB canon v ex = true
    · rw [if_pos hr] at h'
      have hc : createsNew canon oldMap k v := by
        unfold createsNew; rw [hf]; exact hr
      rcases List.mem_cons.mp h' with rfl | h2
      · exact Or.inl ⟨ex, rfl, hr, rfl⟩
      · simp only [List.mem_singleton] at h2
        exact Or.inr ⟨acc.nextId, acc.nextId + 1, hc, h2⟩
    · rw [if_neg hr] at h'
      cases h'

lemma foldSteps_evs_prov (canon : Nat → Nat) (oldMap : List (String × ForItem)) :
    ∀ (elems : List (String × JSValue)) (acc : ForAcc) (ev : ForEv),
    ev ∈ (foldSteps canon oldMap acc elems).evs →
    ev ∈ acc.evs ∨
    (∃ k v ex, (k, v) ∈ elems ∧ fmGet oldMap k = some ex ∧ rebuildB canon v ex = true ∧
       ev = .destroyItem ex.cloneId ex.scopeId) ∨
    (∃ k v c s, (k, v) ∈ elems ∧ createsNew canon oldMap k v ∧
       ev = .createItem k c s) := by
  intro elems
  induction elems with
  | nil => intro acc ev h; exact Or.inl h
  | cons x rest ih =>
    intro acc ev h
    rw [foldSteps_cons] at h
    rcases ih _ ev h with hacc | hdes | hcre
    · rw [zForStep1_evs] at hacc
      rcases List.mem_append.mp hacc with h1 | h2
      · exact Or.inl h1
      · rcases stepEvs_cases canon oldMap acc x.1 x.2 ev h2 with ⟨ex, h3, h4, h5⟩ | ⟨c, s, h3, h4⟩
        · exact Or.inr (Or.inl ⟨x.1, x.2, ex, List.mem_cons_self x rest, h3, h4, h5⟩)
        · exact Or.inr (Or.inr ⟨x.1, x.2, c, s, List.mem_cons_self x rest, h3, h4⟩)
    · rcases hdes with ⟨k, v, ex, h1, h2, h3, h4⟩
      exact Or.inr (Or.inl ⟨k, v, ex, List.mem_cons_of_mem x h1, h2, h3, h4⟩)
    · rcases hcre with ⟨k, v, c, s, h1, h2, h3⟩
      exact Or.inr (Or.inr ⟨k, v, c, s, List.mem_cons_of_mem x h1, h2, h3⟩)

lemma fmHas_false_of_fmGet_none (m : List (String × ForItem)) (k : String)
    (h : fmGet m k = none) : fmHas m k = false := by
  cases hh : fmHas m k
  · rfl
  · exfalso
    unfold fmHas at hh
    rw [List.any_eq_true] at hh
    rcases hh with ⟨p, hp, hpk⟩
    unfold fmGet at h
    rw [Option.map_eq_none', List.find?_eq_none] at h
    exact absurd hpk (h p hp)

lemma rebuildB_reuse_false (canon : Nat → Nat) (v : JSValue) (ex : ForItem)
    (hid : isObj v = true → canonVal canon v = ex.itemValue) :
    rebuildB canon v ex = false := by
  unfold rebuildB valOf
  cases hobj : isObj v with
  | false => simp [hobj]
  | true =>
    have hval := hid hobj
    simp [hobj, hval]

lemma fmGet_cloneId_inj (m : List (String × ForItem)) (k1 k2 : String) (it1 it2 : ForItem)
    (hclone : (m.map (fun p => p.2.cloneId)).Nodup)
    (h1 : fmGet m k1 = some it1) (h2 : fmGet m k2 = some it2)
    (he : it1.cloneId = it2.cloneId) : k1 = k2 ∧ it1 = it2 := by
  have hm1 := fmGet_mem _ _ _ h1
  have hm2 := fmGet_mem _ _ _ h2
  have heq := List.inj_on_of_nodup_map hclone hm1 hm2 he
  exact ⟨congrArg Prod.fst heq, congrArg Prod.snd heq⟩

lemma keys_val_unique (elems : List (String × JSValue)) (k : String) (v1 v2 : JSValue)
    (hnodup : (elems.map Prod.fst).Nodup)
    (h1 : (k, v1) ∈ elems) (h2 : (k, v2) ∈ elems) : v1 = v2 := by
  have heq := List.inj_on_of_nodup_map hnodup h1 h2 rfl
  exact congrArg Prod.snd heq

lemma zForRemovals_mem (oldMap newMap : List (String × ForItem)) (k : String) (it : ForItem)
    (hk : fmGet oldMap k = some it) (hnot : fmHas newMap k = false) :
    ForEv.destroyItem it.cloneId it.scopeId ∈ zForRemovals oldMap newMap := by
  have hmem := fmGet_mem _ _ _ hk
  unfold zForRemovals
  exact List.mem_map_of_mem _ (List.mem_filter.mpr ⟨hmem, by simp [hnot]⟩)

lemma zForRemovals_prov (oldMap newMap : List (String × ForItem)) (ev : ForEv)
    (h : ev ∈ zForRemovals oldMap newMap) :
    ∃ k it, (k, it) ∈ oldMap ∧ fmHas newMap k = false ∧
      ev = .destroyItem it.cloneId it.scopeId := by
  unfold zForRemovals at h
  rcases List.mem_map.mp h with ⟨p, hp, rfl⟩
  rcases List.mem_filter.mp hp with ⟨hmem, hcond⟩
  exact ⟨p.1, p.2, by simpa using hmem, by simpa using hcond, rfl⟩

lemma mem_keys_iff (elems : List (String × JSValue)) (k : String) :
    k ∈ elems.map Prod.fst ↔ ∃ v, (k, v) ∈ elems := by
  constructor
  · intro h
    rcases List.mem_map.mp h with ⟨p, hp, rfl⟩
    exact ⟨p.2, by simpa using hp⟩
  · rintro ⟨v, hv⟩
    exact List.mem_map_of_mem Prod.fst hv

lemma nodup_key_split (l₁ l₂ : List (String × JSValue)) (k : String) (v : JSValue)
    (h : ((l₁ ++ (k, v) :: l₂).map Prod.fst).Nodup) :
    k ∉ l₁.map Prod.fst ∧ k ∉ l₂.map Prod.fst := by
  rw [List.map_append, List.map_cons] at h
  constructor
  · intro hk
    exact (List.disjoint_of_nodup_append h) hk (List.mem_cons_self _ _)
  · have h2 := List.Nodup.of_append_right h
    rw [List.nodup_cons] at h2
    exact fun hk => h2.1 hk

lemma foldSteps_key_lookup (canon : Nat → Nat) (oldMap : List (String × ForItem))
    (st0 : ForAcc) (l₁ l₂ : List (String × JSValue)) (k : String) (v : JSValue)
    (_hk1 : k ∉ l₁.map Prod.fst) (hk2 : k ∉ l₂.map Prod.fst) :
    fmGet (foldSteps canon oldMap st0 (l₁ ++ (k, v) :: l₂)).newMap k =
      some (stepItem canon oldMap (foldSteps canon oldMap st0 l₁) k v) := by
  rw [foldSteps_append, foldSteps_cons, foldSteps_frame canon oldMap l₂ _ k hk2,
      zForStep1_newMap]
  exact fmGet_fmSet_self _ _ _

lemma zForRun_eq (canon : Nat → Nat) (keyOf : JSValue → Nat → String)
    (arr : List JSValue) (st : ForState) :
    zForRun canon keyOf arr st =
      ({ itemsMap := (foldSteps canon st.itemsMap ⟨[], [], st.nextId, []⟩
            (keyedElems keyOf arr)).newMap,
         nextId := (foldSteps canon st.itemsMap ⟨[], [], st.nextId, []⟩
            (keyedElems keyOf arr)).nextId },
       (foldSteps canon st.itemsMap ⟨[], [], st.nextId, []⟩ (keyedElems keyOf arr)).evs ++
         zForRemovals st.itemsMap
           (foldSteps canon st.itemsMap ⟨[], [], st.nextId, []⟩
             (keyedElems keyOf arr)).newMap) := rfl

/-- C1: after any single re-run of a `z-if`/`z-else-if`/`z-else` chain's
conditional effect, a branch is mounted exactly when it is the chosen
one — the first branch in source order that is a `z-else` or whose
condition is truthy — so at most one branch is mounted, or none when no
branch qualifies; every previously mounted branch that is no longer
chosen is unmounted in this same run (clone removed, child Scope cleaned
up and released); and a branch that remains chosen while mounted is kept
untouched, never recreated. -/
theorem c1_conditional_chain_exclusive (bs : List Branch) :
    (∀ (j : Nat) (p : Branch × BranchStep), (runIfStep bs)[j]? = some p →
       (p.1.mounted = true ↔ chooseIdx bs = some j)) ∧
    (∀ (j k : Nat) (p q : Branch × BranchStep),
       (runIfStep bs)[j]? = some p → (runIfStep bs)[k]? = some q →
       p.1.mounted = true → q.1.mounted = true → j = k) ∧
    (∀ j : Nat, chooseIdx bs = some j → ∃ b, bs[j]? = some b ∧
       (b.kind = .zElse ∨ b.cond = true) ∧
       ∀ k, k < j → ∃ b', bs[k]? = some b' ∧ b'.kind ≠ .zElse ∧ b'.cond = false) ∧
    (chooseIdx bs = none →
       ∀ (j : Nat) (b : Branch), bs[j]? = some b → b.kind ≠ .zElse ∧ b.cond = false) ∧
    (∀ (j : Nat) (b : Branch), bs[j]? = some b → b.mounted = true →
       chooseIdx bs ≠ some j →
       (runIfStep bs)[j]? = some ({ b with mounted := false }, .unmount)) ∧
    (∀ (j : Nat) (b : Branch), bs[j]? = some b → b.mounted = true →
       chooseIdx bs = some j →
       (runIfStep bs)[j]? = some (b, .keepMounted)) := by
  have hmount : ∀ (j : Nat) (p : Branch × BranchStep), (runIfStep bs)[j]? = some p →
      (p.1.mounted = true ↔ chooseIdx bs = some j) := by
    intro j p hp
    rw [runIfStep_get] at hp
    rcases Option.map_eq_some'.mp hp with ⟨b, _, rfl⟩
    rw [stepBranch_mounted]
    exact beq_iff_eq ..
  refine ⟨hmount, ?_, ?_, ?_, ?_, ?_⟩
  · intro j k p q hp hq hpm hqm
    have h1 := (hmount j p hp).mp hpm
    have h2 := (hmount k q hq).mp hqm
    rw [h1] at h2
    exact Option.some.inj h2
  · intro j h; exact chooseIdx_some bs j h
  · intro h; exact chooseIdx_none bs h
  · intro j b hb hm hne
    rw [runIfStep_get, hb]
    have hfalse : (chooseIdx bs == some j) = false := by
      simpa using hne
    rw [hfalse]
    simp [stepBranch, hm]
  · intro j b hb hm heq
    rw [runIfStep_get, hb]
    have htrue : (chooseIdx bs == some j) = true := by
      simpa using heq
    rw [htrue]
    simp [stepBranch, hm]

/-- C2: on a re-run of a keyed `z-for`, every key present in both the
previous and the new render whose item value has unchanged identity
keeps its existing clone and child Scope (same ids in the new map, no
destroy of its clone, no create under its key — the final walk only
repositions it); every key present only in the previous render has its
clone removed and its Scope cleaned up and leaves the map; every key
present only in the new render gets a freshly allocated clone and child
Scope (ids never equal to any existing clone's).  Hypotheses: the
derived keys of the new render are pairwise distinct, and the persisted
`itemsMap` is well formed (distinct keys, distinct clone ids, ids below
the allocation counter). -/
theorem c2_keyed_list_reconciliation
    (canon : Nat → Nat) (keyOf : JSValue → Nat → String) (arr : List JSValue) (st : ForState)
    (hnew : ((keyedElems keyOf arr).map Prod.fst).Nodup)
    (hold : (st.itemsMap.map Prod.fst).Nodup)
    (hclone : (st.itemsMap.map (fun p => p.2.cloneId)).Nodup)
    (hwf : ∀ p ∈ st.itemsMap, p.2.cloneId < st.nextId) :
    (∀ (k : String) (v : JSValue) (ex : ForItem),
       (k, v) ∈ keyedElems keyOf arr → fmGet st.itemsMap k = some ex →
       (isObj v = true → canonVal canon v = ex.itemValue) →
       (∃ it', fmGet (zForRun canon keyOf arr st).1.itemsMap k = some it' ∧
          it'.cloneId = ex.cloneId ∧ it'.scopeId = ex.scopeId) ∧
       (∀ s', ForEv.destroyItem ex.cloneId s' ∉ (zForRun canon keyOf arr st).2) ∧
       (∀ c s', ForEv.createItem k c s' ∉ (zForRun canon keyOf arr st).2)) ∧
    (∀ (k : String) (ex : ForItem), fmGet st.itemsMap k = some ex →
       (∀ v, (k, v) ∉ keyedElems keyOf arr) →
       fmGet (zForRun canon keyOf arr st).1.itemsMap k = none ∧
       ForEv.destroyItem ex.cloneId ex.scopeId ∈ (zForRun canon keyOf arr st).2) ∧
    (∀ (k : String) (v : JSValue), (k, v) ∈ keyedElems keyOf arr →
       fmGet st.itemsMap k = none →
       ∃ c s', fmGet (zForRun canon keyOf arr st).1.itemsMap k =
           some ⟨c, s', valOf canon v⟩ ∧
         ForEv.createItem k c s' ∈ (zForRun canon keyOf arr st).2 ∧
         st.nextId ≤ c ∧ ∀ p ∈ st.itemsMap, p.2.cloneId ≠ c) := by
  have hz1 : (zForRun canon keyOf arr st).1.itemsMap =
      (foldSteps canon st.itemsMap ⟨[], [], st.nextId, []⟩ (keyedElems keyOf arr)).newMap :=
    rfl
  have hz2 : (zForRun canon keyOf arr st).2 =
      (foldSteps canon st.itemsMap ⟨[], [], st.nextId, []⟩ (keyedElems keyOf arr)).evs ++
        zForRemovals st.itemsMap
          (foldSteps canon st.itemsMap ⟨[], [], st.nextId, []⟩
            (keyedElems keyOf arr)).newMap := rfl
  refine ⟨?_, ?_, ?_⟩
  · -- keys in both renders with unchanged identity: reuse
    intro k v ex hmem hex hid
    rcases List.append_of_mem hmem with ⟨l₁, l₂, helems⟩
    have hsplit := nodup_key_split l₁ l₂ k v (by rw [← helems]; exact hnew)
    have hstep : fmGet (foldSteps canon st.itemsMap ⟨[], [], st.nextId, []⟩
        (keyedElems keyOf arr)).newMap k =
        some (stepItem canon st.itemsMap
          (foldSteps canon st.itemsMap ⟨[], [], st.nextId, []⟩ l₁) k v) := by
      rw [helems]
      exact foldSteps_key_lookup canon st.itemsMap _ l₁ l₂ k v hsplit.1 hsplit.2
    have hreb : rebuildB canon v ex = false := rebuildB_reuse_false canon v ex hid
    have hcid : (stepItem canon st.itemsMap
          (foldSteps canon st.itemsMap ⟨[], [], st.nextId, []⟩ l₁) k v).cloneId = ex.cloneId ∧
        (stepItem canon st.itemsMap
          (foldSteps canon st.itemsMap ⟨[], [], st.nextId, []⟩ l₁) k v).scopeId = ex.scopeId := by
      constructor <;> simp [stepItem, hex, hreb]
    refine ⟨⟨_, by rw [hz1]; exact hstep, hcid.1, hcid.2⟩, ?_, ?_⟩
    · intro s' hev
      rw [hz2] at hev
      rcases List.mem_append.mp hev with hf | hr
      · rcases foldSteps_evs_prov canon st.itemsMap (keyedElems keyOf arr) _ _ hf with
          h0 | hdes | hcre
        · cases h0
        · rcases hdes with ⟨k', v', ex', hmem', hex', hreb', heq⟩
          injection heq with e1 e2
          obtain ⟨hk', hex'eq⟩ :=
            fmGet_cloneId_inj st.itemsMap k' k ex' ex hclone hex' hex e1.symm
          subst hk'
          have hv' : v' = v := keys_val_unique _ _ _ _ hnew hmem' hmem
          rw [hv', hex'eq, hreb] at hreb'
          cases hreb'
        · rcases hcre with ⟨k0, v0, c0, s0, _, _, heq⟩
          exact ForEv.noConfusion heq
      · rcases zForRemovals_prov _ _ _ hr with ⟨k'', it, hmem'', hhas, heq⟩
        injection heq with e1 e2
        have hget : fmGet st.itemsMap k'' = some it := mem_fmGet _ _ _ hold hmem''
        obtain ⟨hk'', hit⟩ :=
          fmGet_cloneId_inj st.itemsMap k'' k it ex hclone hget hex e1.symm
        subst hk''
        have htrue : fmHas (foldSteps canon st.itemsMap ⟨[], [], st.nextId, []⟩
            (keyedElems keyOf arr)).newMap k'' = true :=
          fmHas_true_of_fmGet_some _ _ _ hstep
        rw [hhas] at htrue
        cases htrue
    · intro c s' hev
      rw [hz2] at hev
      rcases List.mem_append.mp hev with hf | hr
      · rcases foldSteps_evs_prov canon st.itemsMap (keyedElems keyOf arr) _ _ hf with
          h0 | hdes | hcre
        · cases h0
        · rcases hdes with ⟨k0, v0, ex0, _, _, _, heq⟩
          exact ForEv.noConfusion heq
        · rcases hcre with ⟨k0, v0, c0, s0, hmem0, hcn0, heq⟩
          injection heq with e1 e2 e3
          subst e1
          have hv0 : v0 = v := keys_val_unique _ _ _ _ hnew hmem0 hmem
          subst hv0
          have hcn' : rebuildB canon v0 ex = true := by
            have h' : createsNew canon st.itemsMap k v0 := hcn0
            unfold createsNew at h'
            rw [hex] at h'
            exact h'
          rw [hreb] at hcn'
          cases hcn'
      · rcases zForRemovals_prov _ _ _ hr with ⟨k'', it, _, _, heq⟩
        exact ForEv.noConfusion heq
  · -- keys only in the previous render: removed and cleaned up
    intro k ex hex hnot
    have hkeys : k ∉ (keyedElems keyOf arr).map Prod.fst := by
      intro hk
      rcases (mem_keys_iff _ _).mp hk with ⟨v, hv⟩
      exact hnot v hv
    have hnone : fmGet (foldSteps canon st.itemsMap ⟨[], [], st.nextId, []⟩
        (keyedElems keyOf arr)).newMap k = none :=
      (foldSteps_frame canon st.itemsMap (keyedElems keyOf arr) _ k hkeys).trans rfl
    have hhas := fmHas_false_of_fmGet_none _ _ hnone
    refine ⟨by rw [hz1]; exact hnone, ?_⟩
    rw [hz2]
    exact List.mem_append_right _ (zForRemovals_mem _ _ k ex hex hhas)
  · -- keys only in the new render: fresh clone and Scope
    intro k v hmem hnone
    rcases List.append_of_mem hmem with ⟨l₁, l₂, helems⟩
    have hsplit := nodup_key_split l₁ l₂ k v (by rw [← helems]; exact hnew)
    have hstep : fmGet (foldSteps canon st.itemsMap ⟨[], [], st.nextId, []⟩
        (keyedElems keyOf arr)).newMap k =
        some (stepItem canon st.itemsMap
          (foldSteps canon st.itemsMap ⟨[], [], st.nextId, []⟩ l₁) k v) := by
      rw [helems]
      exact foldSteps_key_lookup canon st.itemsMap _ l₁ l₂ k v hsplit.1 hsplit.2
    have hitem : stepItem canon st.itemsMap
        (foldSteps canon st.itemsMap ⟨[], [], st.nextId, []⟩ l₁) k v =
        ⟨(foldSteps canon st.itemsMap ⟨[], [], st.nextId, []⟩ l₁).nextId,
         (foldSteps canon st.itemsMap ⟨[], [], st.nextId, []⟩ l₁).nextId + 1,
         valOf canon v⟩ := by
      simp [stepItem, hnone]
    have hle : st.nextId ≤
        (foldSteps canon st.itemsMap ⟨[], [], st.nextId, []⟩ l₁).nextId :=
      foldSteps_nextId_mono canon st.itemsMap l₁ ⟨[], [], st.nextId, []⟩
    have hev : ForEv.createItem k
        (foldSteps canon st.itemsMap ⟨[], [], st.nextId, []⟩ l₁).nextId
        ((foldSteps canon st.itemsMap ⟨[], [], st.nextId, []⟩ l₁).nextId + 1) ∈
        (foldSteps canon st.itemsMap ⟨[], [], st.nextId, []⟩
          (keyedElems keyOf arr)).evs := by
      rw [helems, foldSteps_append, foldSteps_cons]
      apply foldSteps_evs_mono
      rw [zForStep1_evs]
      apply List.mem_append_right
      have hse : stepEvs canon st.itemsMap
          (foldSteps canon st.itemsMap ⟨[], [], st.nextId, []⟩ l₁) k v =
          [ForEv.createItem k
            (foldSteps canon st.itemsMap ⟨[], [], st.nextId, []⟩ l₁).nextId
            ((foldSteps canon st.itemsMap ⟨[], [], st.nextId, []⟩ l₁).nextId + 1)] := by
        simp [stepEvs, hnone]
      rw [hse]
      exact List.mem_singleton_self _
    refine ⟨(foldSteps canon st.itemsMap ⟨[], [], st.nextId, []⟩ l₁).nextId,
            (foldSteps canon st.itemsMap ⟨[], [], st.nextId, []⟩ l₁).nextId + 1,
            ?_, ?_, hle, ?_⟩
    · rw [hz1, hstep, hitem]
    · rw [hz2]
      exact List.mem_append_left _ hev
    · intro p hp heq
      have := hwf p hp
      omega

/-- Witness for C2, the spec's P5 scenario: re-rendering from keys
`a, b` (clones 10, 12) to keys `a, c` with item `a` keeping its
identity reuses clone 10/scope 11 for `a`, removes clone 12 and cleans
scope 13 for `b`, and creates a fresh clone/scope pair for `c`. -/
theorem c2_witness :
    (∃ it', fmGet (zForRun (fun i => i) c2DemoKey c2DemoArr c2DemoSt).1.itemsMap "a" =
        some it' ∧ it'.cloneId = 10 ∧ it'.scopeId = 11) ∧
    (fmGet (zForRun (fun i => i) c2DemoKey c2DemoArr c2DemoSt).1.itemsMap "b" = none ∧
      ForEv.destroyItem 12 13 ∈ (zForRun (fun i => i) c2DemoKey c2DemoArr c2DemoSt).2) ∧
    (∃ c s', fmGet (zForRun (fun i => i) c2DemoKey c2DemoArr c2DemoSt).1.itemsMap "c" =
        some ⟨c, s', valOf (fun i => i) (.vObj false 3)⟩ ∧
      ForEv.createItem "c" c s' ∈ (zForRun (fun i => i) c2DemoKey c2DemoArr c2DemoSt).2 ∧
      14 ≤ c ∧ ∀ p ∈ c2DemoSt.itemsMap, p.2.cloneId ≠ c) := by
  have h := c2_keyed_list_reconciliation (fun i => i) c2DemoKey c2DemoArr c2DemoSt
    (by decide) (by decide) (by decide) (by decide)
  have hnot : ∀ v, ("b", v) ∉ keyedElems c2DemoKey c2DemoArr := by
    intro v hv
    have hv' : ("b", v) ∈ [("a", JSValue.vObj false 1), ("c", JSValue.vObj false 3)] := hv
    simp only [List.mem_cons, List.mem_singleton, Prod.mk.injEq, List.not_mem_nil,
      or_false] at hv'
    rcases hv' with ⟨h1, _⟩ | ⟨h1, _⟩ <;> exact absurd h1 (by decide)
  exact ⟨(h.1 "a" (.vObj false 1) ⟨10, 11, .vObj false 1⟩ (by decide) (by decide)
            (fun _ => rfl)).1,
         h.2.1 "b" ⟨12, 13, .vObj false 2⟩ (by decide) hnot,
         h.2.2 "c" (.vObj false 3) (by decide) (by decide)⟩

/-- Witness for C1, the spec's P6 scenario after toggling: the `z-if`
branch (cond now true) was unmounted and the `z-else-if` branch (cond
now false) was mounted; the re-run unmounts the stale branch and mounts
the chosen one. -/
theorem c1_witness :
    (runIfStep [⟨.zIf, true, false⟩, ⟨.zElseIf, false, true⟩, ⟨.zElse, false, false⟩])[1]?
      = some (⟨.zElseIf, false, false⟩, .unmount) ∧
    (runIfStep [⟨.zIf, false, true⟩, ⟨.zElseIf, true, false⟩])[0]?
      = some (⟨.zIf, false, false⟩, .unmount) := by
  constructor
  · exact (c1_conditional_chain_exclusive
      [⟨.zIf, true, false⟩, ⟨.zElseIf, false, true⟩, ⟨.zElse, false, false⟩]).2.2.2.2.1
      1 ⟨.zElseIf, false, true⟩ (by simp) rfl (by decide)
  · exact (c1_conditional_chain_exclusive
      [⟨.zIf, false, true⟩, ⟨.zElseIf, true, false⟩]).2.2.2.2.1
      0 ⟨.zIf, false, true⟩ (by simp) rfl (by decide)

end Zog
